import Mathlib

/-!
Verification of the `jsot` codec (`src/lib.rs`).

The codec serializes a JSON value as `tag_byte ++ base64(transform(json_text))`
and reverses the process.  We embed the two public functions `decode` and
`encode` and the helper `pick_shortest` shallowly:

* byte strings are `List Nat` (each element a byte value);
* the base64 standard alphabet with `=` padding (the `base64` crate's
  `BASE64_STANDARD` engine, strict decoding: padding required, canonical
  trailing bits) is implemented concretely as `b64encode` / `b64decode`;
* the external zstd compressor/decompressor (`zstd::encode_all` at level 19 /
  `zstd::decode_all`) and the JSON serializer/parser (`serde_json`'s
  `Value::to_string` / `from_slice`) are parameters, collected in the
  structure `Ext`; theorems that need their behaviour take the exact
  round-trip facts as hypotheses;
* `anyhow::Result` errors on the decode path are embedded as the explicit
  error enumeration `DecodeError`, one constructor per `bail!`/`?` site.
-/

namespace Jsot

/-- One sextet value to its base64 standard-alphabet character
(`A`-`Z`, `a`-`z`, `0`-`9`, `+`, `/`). -/
def b64char (n : Nat) : Nat :=
  if n < 26 then 65 + n
  else if n < 52 then 97 + (n - 26)
  else if n < 62 then 48 + (n - 52)
  else if n = 62 then 43
  else 47

/-- Base64 standard encoding with `=` (byte 61) padding, as performed by
`BASE64_STANDARD.encode_string`: three input bytes per four output
characters, the final group padded. -/
def b64encode : List Nat → List Nat
  | a :: b :: c :: rest =>
      b64char (a / 4) :: b64char (a % 4 * 16 + b / 16) ::
        b64char (b % 16 * 4 + c / 64) :: b64char (c % 64) :: b64encode rest
  | [a, b] => [b64char (a / 4), b64char (a % 4 * 16 + b / 16), b64char (b % 16 * 4), 61]
  | [a] => [b64char (a / 4), b64char (a % 4 * 16), 61, 61]
  | [] => []

/-- Inverse of `b64char`: `none` on a byte outside the standard alphabet
(`=` included: padding is handled structurally by `b64decode`). -/
def b64dchar (c : Nat) : Option Nat :=
  if 65 ≤ c ∧ c ≤ 90 then some (c - 65)
  else if 97 ≤ c ∧ c ≤ 122 then some (c - 97 + 26)
  else if 48 ≤ c ∧ c ≤ 57 then some (c - 48 + 52)
  else if c = 43 then some 62
  else if c = 47 then some 63
  else none

/-- Base64 standard decoding in strict mode, as performed by
`BASE64_STANDARD.decode`: length must be a multiple of four, padding is
required and only allowed in the final group, and non-canonical trailing
bits in a padded final group are rejected. -/
def b64decode : List Nat → Option (List Nat)
  | [] => some []
  | c1 :: c2 :: c3 :: c4 :: rest =>
      match b64dchar c1, b64dchar c2 with
      | some a, some b =>
        if c3 = 61 then
          if c4 = 61 then
            if rest = [] then
              if b % 16 = 0 then some [a * 4 + b / 16] else none
            else none
          else none
        else
          match b64dchar c3 with
          | some c =>
            if c4 = 61 then
              if rest = [] then
                if c % 4 = 0 then some [a * 4 + b / 16, b % 16 * 16 + c / 4] else none
              else none
            else
              match b64dchar c4 with
              | some d =>
                match b64decode rest with
                | some r => some ((a * 4 + b / 16) :: (b % 16 * 16 + c / 4) :: (c % 4 * 64 + d) :: r)
                | none => none
              | none => none
          | none => none
      | _, _ => none
  | _ => none

/-- The predicate of `decode`'s noise-trim scan:
`|v| *v < b'+' || *v > b'z'` (`b'+' = 43`, `b'z' = 122`). -/
def outOfAlpha (v : Nat) : Bool :=
  decide (v < 43) || decide (122 < v)

/-- `Iterator::position`: index of the first element satisfying the
predicate. -/
def position (p : Nat → Bool) : List Nat → Option Nat
  | [] => none
  | v :: rest => if p v then some 0 else (position p rest).map (· + 1)

/-- The noise-trim step of `decode`: truncate the payload at the first byte
outside the contiguous range `b'+'..=b'z'`, if any
(`encoded_data = &encoded_data[..end]`). -/
def trimNoise (l : List Nat) : List Nat :=
  match position outOfAlpha l with
  | some i => l.take i
  | none => l

/-- The failure cases of `decode`, one per `bail!` or `?` site in the
source: empty input, base64 failure, zstd failure, unknown tag byte, and
JSON parse failure. -/
inductive DecodeError : Type
  | emptyInput : DecodeError
  | invalidEncoding : DecodeError
  | transformFailure : DecodeError
  | unsupportedFormat : Nat → DecodeError
  | malformedJson : DecodeError
deriving DecidableEq

/-- The external dependencies of the codec, abstracted: `J` is
`serde_json::Value`, `toBytes` is `Value::to_string` (as UTF-8 bytes),
`parse` is `serde_json::from_slice`, `zstdC` is `zstd::encode_all` at
level 19 and `zstdD` is `zstd::decode_all` (with `none` for the failure
case of each fallible operation). -/
structure Ext (J : Type) : Type where
  toBytes : J → List Nat
  parse : List Nat → Option J
  zstdC : List Nat → Option (List Nat)
  zstdD : List Nat → Option (List Nat)

/-- `pub fn decode(src: &[u8]) -> anyhow::Result<Value>`: split the tag
byte, trim trailing noise, base64-decode, dispatch on the tag (`b'1' = 49`
zstd, `b'2' = 50` plain, anything else unsupported), parse JSON. -/
def decode {J : Type} (E : Ext J) (src : List Nat) : Except DecodeError J :=
  match src with
  | [] => Except.error DecodeError.emptyInput
  | transport :: data =>
    match b64decode (trimNoise data) with
    | none => Except.error DecodeError.invalidEncoding
    | some compressed_data =>
      let json_string : Except DecodeError (List Nat) :=
        if transport = 49 then
          match E.zstdD compressed_data with
          | some d => Except.ok d
          | none => Except.error DecodeError.transformFailure
        else if transport = 50 then
          Except.ok compressed_data
        else
          Except.error (DecodeError.unsupportedFormat transport)
      match json_string with
      | Except.error e => Except.error e
      | Except.ok js =>
        match E.parse js with
        | some v => Except.ok v
        | none => Except.error DecodeError.malformedJson

/-- `fn pick_shortest(options) -> (&str, &[u8])`: a left fold over the
options keeping the shorter byte string, the earlier one on ties
(`reduce(|a, b| if a.1.len() > b.1.len() { b } else { a })`).  The source
unwraps the `Option`; we keep it, `none` being the empty-iterator panic.
Tags are byte values (`"1" = 49`, `"2" = 50`). -/
def pick_shortest (options : List (Nat × List Nat)) : Option (Nat × List Nat) :=
  match options with
  | [] => none
  | a :: rest => some (rest.foldl (fun a b => if a.2.length > b.2.length then b else a) a)

/-- `pub fn encode(value: Value) -> anyhow::Result<String>`: serialize the
value, zstd-compress the text, pick the shortest of the candidates
`("1", zstd_data)` and `("2", json_string)`, then emit the tag byte
followed by the base64 of the chosen bytes.  `none` is the error case
(the compressor's `?`). -/
def encode {J : Type} (E : Ext J) (value : J) : Option (List Nat) :=
  let json_string := E.toBytes value
  match E.zstdC json_string with
  | none => none
  | some zstd_data =>
    match pick_shortest [(49, zstd_data), (50, json_string)] with
    | none => none
    | some sel => some (sel.1 :: b64encode sel.2)

/-- A concrete instantiation of the external dependencies used to evaluate
the development on closed inputs: one JSON value `0` serialized as the
single byte `"0" = 48` and a compressor that returns its input unchanged. -/
def Ew : Ext Nat where
  toBytes := fun _ => [48]
  parse := fun l => if l = [48] then some 0 else none
  zstdC := fun b => some b
  zstdD := fun b => some b

/-- Like `Ew`, but the compressor inflates its input by one byte, making
the identity candidate strictly shorter. -/
def Egrow : Ext Nat where
  toBytes := fun _ => [48]
  parse := fun l => if l = [48] then some 0 else none
  zstdC := fun b => some (48 :: b)
  zstdD := fun b => if b = [48, 48] then some [48] else none

/-- Like `Ew`, but the compressor always fails. -/
def Efail : Ext Nat where
  toBytes := fun _ => [48]
  parse := fun l => if l = [48] then some 0 else none
  zstdC := fun _ => none
  zstdD := fun _ => none

/-! ### Properties of the base64 layer -/

/-- Every character `b64char` emits lies in the byte range `43..=122`
(`b'+'..=b'z'`) and is never the padding byte `61`. -/
theorem b64char_bounds (n : Nat) :
    43 ≤ b64char n ∧ b64char n ≤ 122 ∧ b64char n ≠ 61 := by
  unfold b64char
  split
  · omega
  split
  · omega
  split
  · omega
  split <;> omega

/-- `b64dchar` inverts `b64char` on every sextet value. -/
theorem b64dchar_b64char : ∀ n < 64, b64dchar (b64char n) = some n := by
  decide

/-- Strict base64 decoding inverts base64 encoding on byte strings. -/
theorem b64decode_b64encode (l : List Nat) (h : ∀ x ∈ l, x < 256) :
    b64decode (b64encode l) = some l := by
  induction l using b64encode.induct with
  | case1 a b c rest ih =>
    have ha : a < 256 := h a (by simp)
    have hb : b < 256 := h b (by simp)
    have hc : c < 256 := h c (by simp)
    have ih' := ih (fun x hx => h x (by simp [hx]))
    have h1 : b64dchar (b64char (a / 4)) = some (a / 4) :=
      b64dchar_b64char _ (by omega)
    have h2 : b64dchar (b64char (a % 4 * 16 + b / 16)) = some (a % 4 * 16 + b / 16) :=
      b64dchar_b64char _ (by omega)
    have h3 : b64dchar (b64char (b % 16 * 4 + c / 64)) = some (b % 16 * 4 + c / 64) :=
      b64dchar_b64char _ (by omega)
    have h4 : b64dchar (b64char (c % 64)) = some (c % 64) :=
      b64dchar_b64char _ (by omega)
    simp only [b64encode, b64decode, h1, h2, h3, h4, ih',
      if_neg (b64char_bounds (b % 16 * 4 + c / 64)).2.2,
      if_neg (b64char_bounds (c % 64)).2.2,
      Option.some.injEq, List.cons.injEq]
    refine ⟨by omega, by omega, by omega, trivial⟩
  | case2 a b =>
    have ha : a < 256 := h a (by simp)
    have hb : b < 256 := h b (by simp)
    have h1 : b64dchar (b64char (a / 4)) = some (a / 4) :=
      b64dchar_b64char _ (by omega)
    have h2 : b64dchar (b64char (a % 4 * 16 + b / 16)) = some (a % 4 * 16 + b / 16) :=
      b64dchar_b64char _ (by omega)
    have h3 : b64dchar (b64char (b % 16 * 4)) = some (b % 16 * 4) :=
      b64dchar_b64char _ (by omega)
    simp only [b64encode, b64decode, h1, h2, h3,
      if_neg (b64char_bounds (b % 16 * 4)).2.2, if_true]
    rw [if_pos (show b % 16 * 4 % 4 = 0 from by omega)]
    simp only [Option.some.injEq, List.cons.injEq]
    refine ⟨by omega, by omega, trivial⟩
  | case3 a =>
    have ha : a < 256 := h a (by simp)
    have h1 : b64dchar (b64char (a / 4)) = some (a / 4) :=
      b64dchar_b64char _ (by omega)
    have h2 : b64dchar (b64char (a % 4 * 16)) = some (a % 4 * 16) :=
      b64dchar_b64char _ (by omega)
    simp only [b64encode, b64decode, h1, h2, if_true]
    rw [if_pos (show a % 4 * 16 % 16 = 0 from by omega)]
    simp only [Option.some.injEq, List.cons.injEq]
    refine ⟨by omega, trivial⟩
  | case4 => rfl

/-- Every byte of a base64 encoding lies in the trim range `43..=122`. -/
theorem mem_b64encode_bounds (l : List Nat) :
    ∀ x ∈ b64encode l, 43 ≤ x ∧ x ≤ 122 := by
  induction l using b64encode.induct with
  | case1 a b c rest ih =>
    intro x hx
    rw [b64encode] at hx
    simp only [List.mem_cons] at hx
    rcases hx with rfl | rfl | rfl | rfl | h1
    · exact ⟨(b64char_bounds _).1, (b64char_bounds _).2.1⟩
    · exact ⟨(b64char_bounds _).1, (b64char_bounds _).2.1⟩
    · exact ⟨(b64char_bounds _).1, (b64char_bounds _).2.1⟩
    · exact ⟨(b64char_bounds _).1, (b64char_bounds _).2.1⟩
    · exact ih x h1
  | case2 a b =>
    intro x hx
    rw [b64encode] at hx
    simp only [List.mem_cons, List.not_mem_nil, or_false] at hx
    rcases hx with rfl | rfl | rfl | rfl
    · exact ⟨(b64char_bounds _).1, (b64char_bounds _).2.1⟩
    · exact ⟨(b64char_bounds _).1, (b64char_bounds _).2.1⟩
    · exact ⟨(b64char_bounds _).1, (b64char_bounds _).2.1⟩
    · omega
  | case3 a =>
    intro x hx
    rw [b64encode] at hx
    simp only [List.mem_cons, List.not_mem_nil, or_false] at hx
    rcases hx with rfl | rfl | h1
    · exact ⟨(b64char_bounds _).1, (b64char_bounds _).2.1⟩
    · exact ⟨(b64char_bounds _).1, (b64char_bounds _).2.1⟩
    · rcases h1 with rfl | rfl <;> omega
  | case4 => intro x hx; simp [b64encode] at hx

/-! ### Properties of the noise-trim step -/

/-- `outOfAlpha` is false exactly on the byte range `43..=122`. -/
theorem outOfAlpha_eq_false (x : Nat) :
    outOfAlpha x = false ↔ 43 ≤ x ∧ x ≤ 122 := by
  simp [outOfAlpha]

/-- The scan finds nothing in a list with no out-of-range byte. -/
theorem position_eq_none {p : Nat → Bool} :
    ∀ {l : List Nat}, (∀ x ∈ l, p x = false) → position p l = none
  | [], _ => rfl
  | v :: rest, h => by
    rw [position, if_neg (by simp [h v (by simp)]),
      position_eq_none (fun x hx => h x (by simp [hx]))]
    rfl

/-- The scan finds the head of the appended suffix when the prefix is
clean and the suffix starts out of range. -/
theorem position_append {p : Nat → Bool} :
    ∀ {l : List Nat}, (∀ x ∈ l, p x = false) → ∀ {c}, p c = true → ∀ s,
      position p (l ++ c :: s) = some l.length
  | [], _, c, hc, s => by simp [position, hc]
  | v :: rest, h, c, hc, s => by
    rw [List.cons_append, position, if_neg (by simp [h v (by simp)]),
      position_append (fun x hx => h x (by simp [hx])) hc s]
    rfl

/-- The trim step keeps a payload with every byte in range unchanged. -/
theorem trimNoise_of_all {l : List Nat} (h : ∀ x ∈ l, outOfAlpha x = false) :
    trimNoise l = l := by
  rw [trimNoise, position_eq_none h]

/-- The trim step drops a suffix that starts with an out-of-range byte. -/
theorem trimNoise_append {l : List Nat} (hl : ∀ x ∈ l, outOfAlpha x = false)
    {c : Nat} (hc : outOfAlpha c = true) (s : List Nat) :
    trimNoise (l ++ c :: s) = l := by
  rw [trimNoise, position_append hl hc s]
  show List.take l.length (l ++ c :: s) = l
  exact List.take_left l (c :: s)

/-! ### Structural lemmas about `encode` and `decode` -/

/-- The trim step keeps a base64 payload intact, whether followed by
nothing or by a suffix starting outside the trim range. -/
theorem trim_b64 (data extra : List Nat)
    (hextra : extra = [] ∨ ∃ c s, extra = c :: s ∧ outOfAlpha c = true) :
    trimNoise (b64encode data ++ extra) = b64encode data := by
  have hall : ∀ x ∈ b64encode data, outOfAlpha x = false := fun x hx =>
    (outOfAlpha_eq_false x).2 (mem_b64encode_bounds data x hx)
  rcases hextra with rfl | ⟨c, s, rfl, hc⟩
  · rw [List.append_nil]
    exact trimNoise_of_all hall
  · exact trimNoise_append hall hc s

/-- What `encode` returns when the compressor succeeds: the identity
candidate (tag `50 = b'2'`) exactly when the compressed bytes are strictly
longer, the compressed candidate (tag `49 = b'1'`) otherwise — ties keep
the earlier option of the registry. -/
theorem encode_eq {J : Type} (E : Ext J) (v : J) (z : List Nat)
    (hz : E.zstdC (E.toBytes v) = some z) :
    encode E v = some (if (E.toBytes v).length < z.length
      then 50 :: b64encode (E.toBytes v)
      else 49 :: b64encode z) := by
  simp only [encode, pick_shortest, hz, List.foldl]
  by_cases h : z.length > (E.toBytes v).length
  · rw [if_pos h, if_pos (by omega)]
  · rw [if_neg h, if_neg (by omega)]

/-- Round-trip core: decoding an encoder output, possibly followed by a
suffix that starts outside the trim range, recovers the value.  The
hypotheses are the round-trip facts of the external dependencies at the
point of use: the compressor succeeded with byte output `z`, the
decompressor inverts it, and the JSON parser inverts the serializer. -/
theorem roundtrip_core {J : Type} (E : Ext J) (v : J) (z out extra : List Nat)
    (hz : E.zstdC (E.toBytes v) = some z)
    (hzd : E.zstdD z = some (E.toBytes v))
    (hzb : ∀ x ∈ z, x < 256)
    (hjb : ∀ x ∈ E.toBytes v, x < 256)
    (hjson : E.parse (E.toBytes v) = some v)
    (he : encode E v = some out)
    (hextra : extra = [] ∨ ∃ c s, extra = c :: s ∧ outOfAlpha c = true) :
    decode E (out ++ extra) = Except.ok v := by
  rw [encode_eq E v z hz] at he
  by_cases h : (E.toBytes v).length < z.length
  · rw [if_pos h] at he
    cases he
    rw [List.cons_append]
    simp only [decode]
    rw [trim_b64 _ _ hextra, b64decode_b64encode _ hjb]
    simp only [if_neg (by omega : ¬(50 : Nat) = 49), if_pos rfl, if_true, hjson]
  · rw [if_neg h] at he
    cases he
    rw [List.cons_append]
    simp only [decode]
    rw [trim_b64 _ _ hextra, b64decode_b64encode _ hzb]
    simp only [if_pos rfl, if_true, hzd, hjson]

/-- When the compressor fails, `encode` propagates the failure. -/
theorem encode_none_of_zstdC_none {J : Type} (E : Ext J) (v : J)
    (h : E.zstdC (E.toBytes v) = none) : encode E v = none := by
  simp [encode, h]

/-! ### The claims -/

/-- Claim C1: for every JSON value `v`, decoding the string produced by
encoding `v` returns `v` (structural equality).  The hypotheses are the
round-trip behaviour of the external compressor and JSON library at `v`:
the compressor succeeded with output `z`, the decompressor inverts it,
both byte strings are genuine byte strings, and the parser inverts the
serializer. -/
theorem decode_encode_roundtrip {J : Type} (E : Ext J) (v : J) (z out : List Nat)
    (hz : E.zstdC (E.toBytes v) = some z)
    (hzd : E.zstdD z = some (E.toBytes v))
    (hzb : ∀ x ∈ z, x < 256)
    (hjb : ∀ x ∈ E.toBytes v, x < 256)
    (hjson : E.parse (E.toBytes v) = some v)
    (he : encode E v = some out) :
    decode E out = Except.ok v := by
  have h := roundtrip_core E v z out [] hz hzd hzb hjb hjson he (Or.inl rfl)
  rwa [List.append_nil] at h

/-- Witness for C1 at the concrete instantiation `Ew`, value `0`. -/
theorem decode_encode_roundtrip_witness :
    encode Ew 0 = some [49, 77, 65, 61, 61] ∧
      decode Ew [49, 77, 65, 61, 61] = Except.ok 0 :=
  ⟨rfl, decode_encode_roundtrip Ew 0 [48] [49, 77, 65, 61, 61]
    rfl rfl (by decide) (by decide) rfl rfl⟩

/-- Claim C2 counterexample: the code does not accept tag `b'0' = 48`.
On the payload `"MA==" = [77, 65, 61, 61]` tag `49` decodes to the value
while tag `48` fails with the unsupported-format error, so tag `0` is not
treated identically to tag `1`. -/
theorem decode_tag0_cex :
    decode Ew (48 :: [77, 65, 61, 61]) = Except.error (DecodeError.unsupportedFormat 48) ∧
      decode Ew (49 :: [77, 65, 61, 61]) = Except.ok 0 :=
  ⟨rfl, rfl⟩

/-- Claim C2 amended: `decode` never succeeds on tag `b'0' = 48`: it
fails with the base64 error when the trimmed payload does not decode, and
with `UnsupportedFormat(48)` otherwise — tag `48` falls into the same
catch-all arm as any unknown tag. -/
theorem decode_tag0_amended {J : Type} (E : Ext J) (p : List Nat) :
    decode E (48 :: p) = Except.error DecodeError.invalidEncoding ∨
      decode E (48 :: p) = Except.error (DecodeError.unsupportedFormat 48) := by
  simp only [decode]
  cases hb : b64decode (trimNoise p) with
  | none => exact Or.inl rfl
  | some cd =>
    simp only [if_neg (by omega : ¬(48 : Nat) = 49), if_neg (by omega : ¬(48 : Nat) = 50)]
    exact Or.inr trivial

/-- Claim C3 counterexample: when the compressed candidate has the same
length as the identity candidate (not smaller, as the claim requires),
`encode` emits tag `49 = b'1'`, not tag `50 = b'2'`: `pick_shortest`
keeps the earlier candidate on ties. -/
theorem encode_tie_cex :
    ¬ (∀ (E : Ext Nat) (v : Nat) (z out : List Nat),
        E.zstdC (E.toBytes v) = some z → encode E v = some out →
        (E.toBytes v).length ≤ z.length → out.head? = some 50) := by
  intro hclaim
  exact absurd (hclaim Ew 0 [48] [49, 77, 65, 61, 61] rfl rfl (by decide)) (by decide)

/-- Claim C3 amended: whenever the compressed candidate is strictly
longer than the identity candidate, `encode` emits tag `50 = b'2'` with
the identity payload; on ties the compressed candidate (tag `49`) wins. -/
theorem encode_identity_when_longer {J : Type} (E : Ext J) (v : J) (z : List Nat)
    (hz : E.zstdC (E.toBytes v) = some z)
    (hgt : (E.toBytes v).length < z.length) :
    encode E v = some (50 :: b64encode (E.toBytes v)) := by
  rw [encode_eq E v z hz, if_pos hgt]

/-- Witness for the amended C3 at `Egrow`, whose compressor inflates its
input by one byte. -/
theorem encode_identity_when_longer_witness :
    encode Egrow 0 = some [50, 77, 65, 61, 61] :=
  (encode_identity_when_longer Egrow 0 [48, 48] rfl (by decide)).trans rfl

/-- Claim C4: when the compressor succeeds, `encode` emits the candidate
with the fewest raw bytes — the identity candidate (tag `50 = b'2'`)
exactly when the compressed bytes are strictly longer, the compressed
candidate (tag `49 = b'1'`) otherwise, so on equal lengths the candidate
earlier in the registry order (tag `49`) is chosen; the emitted payload
length is the minimum of the two candidate lengths. -/
theorem encode_picks_shortest {J : Type} (E : Ext J) (v : J) (z : List Nat)
    (hz : E.zstdC (E.toBytes v) = some z) :
    encode E v = some (if (E.toBytes v).length < z.length
        then 50 :: b64encode (E.toBytes v)
        else 49 :: b64encode z) ∧
      (if (E.toBytes v).length < z.length
        then (E.toBytes v).length
        else z.length) = min z.length (E.toBytes v).length := by
  refine ⟨encode_eq E v z hz, ?_⟩
  by_cases h : (E.toBytes v).length < z.length
  · rw [if_pos h]
    omega
  · rw [if_neg h]
    omega

/-- Witness for C4 at `Ew`: equal candidate lengths, tag `49` emitted. -/
theorem encode_picks_shortest_witness :
    encode Ew 0 = some [49, 77, 65, 61, 61] :=
  (encode_picks_shortest Ew 0 [48] rfl).1.trans rfl

/-- Claim C5: appending to an encoder output any byte string whose first
byte lies outside the range `b'+'..=b'z'` does not change the decoded
value: the trim step drops the suffix.  Same external-library hypotheses
as C1. -/
theorem decode_encode_noise_tolerant {J : Type} (E : Ext J) (v : J)
    (z out : List Nat) (c : Nat) (s : List Nat)
    (hz : E.zstdC (E.toBytes v) = some z)
    (hzd : E.zstdD z = some (E.toBytes v))
    (hzb : ∀ x ∈ z, x < 256)
    (hjb : ∀ x ∈ E.toBytes v, x < 256)
    (hjson : E.parse (E.toBytes v) = some v)
    (he : encode E v = some out)
    (hc : c < 43 ∨ 122 < c) :
    decode E (out ++ c :: s) = Except.ok v := by
  refine roundtrip_core E v z out (c :: s) hz hzd hzb hjb hjson he (Or.inr ⟨c, s, rfl, ?_⟩)
  simp only [outOfAlpha, Bool.or_eq_true, decide_eq_true_eq]
  exact hc

/-- Witness for C5: the repo's own garbage-suffix scenario, `&1312`
(bytes `[38, 49, 51, 49, 50]`, the head `38` out of range) appended to an
encoder output. -/
theorem decode_encode_noise_tolerant_witness :
    decode Ew ([49, 77, 65, 61, 61] ++ [38, 49, 51, 49, 50]) = Except.ok 0 :=
  decode_encode_noise_tolerant Ew 0 [48] [49, 77, 65, 61, 61] 38 [49, 51, 49, 50]
    rfl rfl (by decide) (by decide) rfl rfl (by decide)

/-- Claim C6 counterexample: an unknown tag does not always fail with the
unsupported-format error.  Base64 decoding runs before tag dispatch, so
tag `51 = b'3'` with the one-byte payload `"A" = [65]` (an invalid base64
length) fails with the base64 error instead. -/
theorem decode_unknown_tag_cex :
    ¬ (∀ (E : Ext Nat) (t : Nat) (p : List Nat), t ≠ 48 → t ≠ 49 → t ≠ 50 →
        decode E (t :: p) = Except.error (DecodeError.unsupportedFormat t)) := by
  intro hclaim
  have h := hclaim Ew 51 [65] (by omega) (by omega) (by omega)
  rw [show decode Ew (51 :: [65]) = Except.error DecodeError.invalidEncoding from rfl] at h
  exact DecodeError.noConfusion (Except.error.inj h)

/-- Claim C6 amended: on every tag outside the registry `decode` always
fails — with the base64 error when the trimmed payload does not decode,
and with `UnsupportedFormat(t)` otherwise. -/
theorem decode_unknown_tag_fails {J : Type} (E : Ext J) (t : Nat) (p : List Nat)
    (_h0 : t ≠ 48) (h1 : t ≠ 49) (h2 : t ≠ 50) :
    decode E (t :: p) = Except.error DecodeError.invalidEncoding ∨
      decode E (t :: p) = Except.error (DecodeError.unsupportedFormat t) := by
  simp only [decode]
  cases hb : b64decode (trimNoise p) with
  | none => exact Or.inl rfl
  | some cd =>
    simp only [if_neg h1, if_neg h2]
    exact Or.inr trivial

/-- Witness for the amended C6 at tag `51`, empty payload (which
base64-decodes, so the unsupported-format arm is reached). -/
theorem decode_unknown_tag_fails_witness :
    decode Ew (51 :: []) = Except.error DecodeError.invalidEncoding ∨
      decode Ew (51 :: []) = Except.error (DecodeError.unsupportedFormat 51) :=
  decode_unknown_tag_fails Ew 51 [] (by omega) (by omega) (by omega)

/-- Claim C7: `decode` fails with the empty-input error exactly on the
empty byte string — no other input produces that error. -/
theorem decode_empty_iff {J : Type} (E : Ext J) (l : List Nat) :
    decode E l = Except.error DecodeError.emptyInput ↔ l = [] := by
  cases l with
  | nil => exact ⟨fun _ => rfl, fun _ => rfl⟩
  | cons t d =>
    refine ⟨fun h => ?_, fun h => List.noConfusion h⟩
    simp only [decode] at h
    cases hb : b64decode (trimNoise d) with
    | none => simp [hb] at h
    | some cd =>
      simp only [hb] at h
      by_cases h1 : t = 49
      · simp only [if_pos h1] at h
        cases hz : E.zstdD cd with
        | none => simp [hz] at h
        | some js =>
          simp only [hz] at h
          cases hp : E.parse js with
          | none => simp [hp] at h
          | some v => simp [hp] at h
      · by_cases h2 : t = 50
        · simp only [if_neg h1, if_pos h2] at h
          cases hp : E.parse cd with
          | none => simp [hp] at h
          | some v => simp [hp] at h
        · simp [if_neg h1, if_neg h2] at h

/-- Claim C8: when the compressor transform fails during `encode`, the
whole call fails — there is no fallback to the identity candidate. -/
theorem encode_compressor_failure_fatal {J : Type} (E : Ext J) (v : J)
    (h : E.zstdC (E.toBytes v) = none) : encode E v = none :=
  encode_none_of_zstdC_none E v h

/-- Witness for C8 at `Efail`, whose compressor always fails. -/
theorem encode_compressor_failure_fatal_witness : encode Efail 0 = none :=
  encode_compressor_failure_fatal Efail 0 rfl

/-- Claim C9: every byte after the tag byte of an encoder output lies in
the range `b'+'..=b'z'`, so the noise-trim step of `decode` keeps an
untampered encoder payload unchanged. -/
theorem encode_output_in_alphabet {J : Type} (E : Ext J) (v : J) (out : List Nat)
    (he : encode E v = some out) :
    out.tail.all (fun x => decide (43 ≤ x) && decide (x ≤ 122)) = true ∧
      trimNoise out.tail = out.tail := by
  cases hzc : E.zstdC (E.toBytes v) with
  | none =>
    rw [encode_none_of_zstdC_none E v hzc] at he
    cases he
  | some z =>
    rw [encode_eq E v z hzc] at he
    by_cases h : (E.toBytes v).length < z.length
    · rw [if_pos h] at he
      cases he
      refine ⟨List.all_eq_true.2 (fun x hx => ?_), trimNoise_of_all (fun x hx => ?_)⟩
      · have hm := mem_b64encode_bounds (E.toBytes v) x (by simpa using hx)
        simp [hm.1, hm.2]
      · exact (outOfAlpha_eq_false x).2 (mem_b64encode_bounds (E.toBytes v) x (by simpa using hx))
    · rw [if_neg h] at he
      cases he
      refine ⟨List.all_eq_true.2 (fun x hx => ?_), trimNoise_of_all (fun x hx => ?_)⟩
      · have hm := mem_b64encode_bounds z x (by simpa using hx)
        simp [hm.1, hm.2]
      · exact (outOfAlpha_eq_false x).2 (mem_b64encode_bounds z x (by simpa using hx))

/-- Witness for C9 at `Ew`. -/
theorem encode_output_in_alphabet_witness :
    ([49, 77, 65, 61, 61] : List Nat).tail.all
        (fun x => decide (43 ≤ x) && decide (x ≤ 122)) = true ∧
      trimNoise ([49, 77, 65, 61, 61] : List Nat).tail =
        ([49, 77, 65, 61, 61] : List Nat).tail :=
  encode_output_in_alphabet Ew 0 [49, 77, 65, 61, 61] rfl

/-- Claim C10: for an arbitrary input (not only encoder outputs), the
decode result is independent of everything at or after the first
out-of-range payload byte: a payload entirely in the range `b'+'..=b'z'`
followed by a suffix whose first byte is out of range decodes exactly as
the bare payload, whatever the tag. -/
theorem decode_independent_of_suffix {J : Type} (E : Ext J) (t c : Nat)
    (p s : List Nat)
    (hp : ∀ x ∈ p, 43 ≤ x ∧ x ≤ 122) (hc : c < 43 ∨ 122 < c) :
    decode E (t :: (p ++ c :: s)) = decode E (t :: p) := by
  have hp' : ∀ x ∈ p, outOfAlpha x = false := fun x hx =>
    (outOfAlpha_eq_false x).2 (hp x hx)
  have hc' : outOfAlpha c = true := by
    simp only [outOfAlpha, Bool.or_eq_true, decide_eq_true_eq]
    exact hc
  simp only [decode]
  rw [trimNoise_append hp' hc' s, trimNoise_of_all hp']

/-- Witness for C10: the repo's garbage-suffix fixture shape. -/
theorem decode_independent_of_suffix_witness :
    decode Ew (49 :: ([77, 65, 61, 61] ++ 38 :: [49, 51, 49, 50])) =
      decode Ew (49 :: [77, 65, 61, 61]) :=
  decode_independent_of_suffix Ew 49 38 [77, 65, 61, 61] [49, 51, 49, 50]
    (by decide) (by decide)

end Jsot
